import Mathlib

set_option maxHeartbeats 1000000
set_option maxRecDepth 16384

deriving instance DecidableEq for Except

/-!
Shallow embedding of the Go-RCON client library (RefractorGSCM/Go-RCON).

The canonical single-socket implementation lives in the packet package
(packet/client.go, packet/type.go) and the rcon client (unnamed/part_003);
the legacy two-socket implementation lives in packet.go and payload.go.
Machine integers (Go int32) are modelled as Int with explicit two's-complement
truncation where overflow can occur; byte strings are List Nat with each byte
below 256.
-/

/-- Two's-complement truncation to signed 32 bits: the semantics of Go int32
arithmetic, which wraps on overflow. -/
def trunc32 (n : Int) : Int := (n + 2147483648) % 4294967296 - 2147483648

/-- Byte order selector, from the endian package (type Mode). -/
inductive Mode
| little
| big
deriving DecidableEq

/-- The four bytes binary.Write emits for an int32 value in the given byte
order (two's-complement representation, least significant byte first for
little endian). -/
def encodeInt32 (m : Mode) (x : Int) : List Nat :=
  let u : Nat := (x % 4294967296).toNat
  match m with
  | .little => [u % 256, u / 256 % 256, u / 65536 % 256, u / 16777216 % 256]
  | .big => [u / 16777216 % 256, u / 65536 % 256, u / 256 % 256, u % 256]

/-- The int32 value binary.Read recovers from four bytes in the given byte
order. -/
def decodeInt32 (m : Mode) (l : List Nat) : Int :=
  let u : Nat := match m with
    | .little => l.getD 0 0 + 256 * l.getD 1 0 + 65536 * l.getD 2 0 + 16777216 * l.getD 3 0
    | .big => l.getD 3 0 + 256 * l.getD 2 0 + 65536 * l.getD 1 0 + 16777216 * l.getD 0 0
  if u < 2147483648 then (u : Int) else (u : Int) - 4294967296

theorem encodeInt32_length (m : Mode) (x : Int) : (encodeInt32 m x).length = 4 := by
  cases m <;> rfl

theorem trunc32_range (n : Int) : -2147483648 ≤ trunc32 n ∧ trunc32 n < 2147483648 := by
  unfold trunc32
  omega

theorem trunc32_eq_self (n : Int) (h1 : -2147483648 ≤ n) (h2 : n < 2147483648) :
    trunc32 n = n := by
  unfold trunc32
  omega

theorem decodeInt32_encodeInt32 (m : Mode) (x : Int) (h1 : -2147483648 ≤ x)
    (h2 : x < 2147483648) : decodeInt32 m (encodeInt32 m x) = x := by
  cases m <;>
    simp only [encodeInt32, decodeInt32, List.getD, List.get?_cons_zero,
      List.get?_cons_succ, Option.getD_some] <;>
    split <;> omega

/-- Packet type constant TypeAuth from packet/type.go. -/
def TypeAuth : Int := 3

/-- Packet type constant TypeAuthRes from packet/type.go. -/
def TypeAuthRes : Int := 2

/-- Packet type constant TypeCommand from packet/type.go. -/
def TypeCommand : Int := 2

/-- Packet type constant TypeCommandRes from packet/type.go. -/
def TypeCommandRes : Int := 0

/-- Reserved ID AuthFailedID from packet/type.go, signalling auth failure. -/
def AuthFailedID : Int := -1

/-- ClientPacket from packet/client.go: endianness mode, int32 type tag,
raw body bytes and int32 id. -/
structure ClientPacket where
  mode : Mode
  pType : Int
  body : List Nat
  id : Int
deriving DecidableEq

/-- Constant int32Bytes from packet/client.go. -/
def int32Bytes : Int := 4

/-- Constant endPadBytes from packet/client.go. -/
def endPadBytes : Int := 1

/-- Method Body of ClientPacket: the stored body with one null byte
appended. -/
def ClientPacket.Body (p : ClientPacket) : List Nat := p.body ++ [0]

/-- Method Size of ClientPacket: int32Bytes + int32Bytes + int32(len(Body))
+ endPadBytes, computed in Go int32 arithmetic (the length cast and the sum
both truncate). -/
def ClientPacket.Size (p : ClientPacket) : Int :=
  trunc32 (int32Bytes + int32Bytes + trunc32 (p.Body.length : Int) + endPadBytes)

/-- Error tag for a failed packet build (the legacy encoder's payload too
large error). -/
inductive BuildErr
| payloadTooLarge
deriving DecidableEq

/-- Method Build of ClientPacket: writes size, id, type, Body and one final
null byte into an in-memory buffer. The binary.Write error branches in the
source are unreachable because writes to a bytes.Buffer cannot fail, so
Build always returns the bytes; there is no size check on this path. -/
def ClientPacket.Build (p : ClientPacket) : Except BuildErr (List Nat) :=
  .ok (encodeInt32 p.mode p.Size ++ encodeInt32 p.mode p.id ++
    encodeInt32 p.mode p.pType ++ p.Body ++ [0])

/-- Leading half of Go bytes.Trim for a one-byte cutset: drops every leading
byte equal to c. -/
def dropLeading (c : Nat) (l : List Nat) : List Nat :=
  l.dropWhile (fun b => b == c)

/-- Trailing half of Go bytes.Trim for a one-byte cutset: drops every
trailing byte equal to c. -/
def dropTrailing (c : Nat) (l : List Nat) : List Nat :=
  (l.reverse.dropWhile (fun b => b == c)).reverse

/-- Go bytes.Trim for a one-byte cutset: removes the byte c from BOTH ends
of the slice (leading and trailing), as used on decoded packet bodies. -/
def goTrim (c : Nat) (l : List Nat) : List Nat :=
  dropTrailing c (dropLeading c l)

/-- Modelled from the spec: the body trimming the specification documents
for decode, namely trailing null bytes stripped first and trailing newline
bytes stripped second, with leading bytes untouched. Kept separate from
goTrim (the source's both-ends bytes.Trim) for comparison. -/
def specDocumentedTrim (l : List Nat) : List Nat :=
  dropTrailing 10 (dropTrailing 0 l)

/-- Result of DecodeClientPacket: a decoded packet, an io error returned to
the caller (truncated stream at any read), or a runtime panic (make of a
slice with negative length). -/
inductive DecodeResult
| ok (p : ClientPacket)
| readErr
| panicked
deriving DecidableEq

/-- DecodeClientPacket from packet/client.go over a byte stream: reads the
size, id and type int32 headers (erroring on a short read), computes
bodyLen = size - 4 - 4 in int32 arithmetic, panics if bodyLen is negative
(Go make with a negative length), reads exactly bodyLen body bytes
(erroring on a short read), and trims null then newline bytes from both
ends of the body. -/
def DecodeClientPacket (mode : Mode) (s : List Nat) : DecodeResult :=
  if s.length < 4 then .readErr else
  let size := decodeInt32 mode (s.take 4)
  let s1 := s.drop 4
  if s1.length < 4 then .readErr else
  let id := decodeInt32 mode (s1.take 4)
  let s2 := s1.drop 4
  if s2.length < 4 then .readErr else
  let pType := decodeInt32 mode (s2.take 4)
  let s3 := s2.drop 4
  let bodyLen := trunc32 (size - 4 - 4)
  if bodyLen < 0 then .panicked else
  if s3.length < bodyLen.toNat then .readErr else
  let body := s3.take bodyLen.toNat
  .ok { mode := mode, pType := pType, body := goTrim 10 (goTrim 0 body), id := id }

/-- The payload struct of the legacy implementation (payload.go); the
NonBroadcastPatterns field (a list of regular expressions, irrelevant to
the codec) is omitted. The Type field is renamed PType because Type is a
reserved word in Lean. -/
structure payload where
  ID : Int
  PType : Int
  Body : List Nat
deriving DecidableEq

/-- Constant payloadMaxSize from payload.go. -/
def payloadMaxSize : Nat := 2048

/-- Method getSize of payload: int32(len(Body) + (4 + 4 + 2)). -/
def payload.getSize (p : payload) : Int := trunc32 ((p.Body.length : Int) + 10)

/-- buildPacketFromPayload from packet.go: writes size, id, type, body and
two null bytes (little endian throughout), then fails if the buffer length
reached payloadMaxSize. -/
def buildPacketFromPayload (p : payload) : Except BuildErr (List Nat) :=
  let buffer := encodeInt32 .little p.getSize ++ encodeInt32 .little p.ID ++
    encodeInt32 .little p.PType ++ p.Body ++ [0, 0]
  if payloadMaxSize ≤ buffer.length then .error .payloadTooLarge else .ok buffer

/-- idInArr from packet/client.go: linear membership scan over the
restricted-ID slice. -/
def idInArr : List Int → Int → Bool
  | [], _ => false
  | v :: rest, id => if v = id then true else idInArr rest id

/-- One increment step of the ID counter, from getNextID in
packet/client.go: if the incremented int32 value would equal MaxInt32 the
counter is reset to 1, otherwise it is the incremented value. -/
def incrementID (x : Int) : Int :=
  if trunc32 (x + 1) = 2147483647 then 1 else trunc32 (x + 1)

/-- The restricted-ID skip loop of getNextID, with explicit fuel standing
in for the source's unbounded for-loop: while the current counter value is
restricted, apply another increment step. The termination theorem below
shows the fuel is never exhausted as long as some ID in the legal range is
unrestricted. -/
def getNextIDLoop (restrictedIDs : List Int) : Nat → Int → Option Int
  | 0, _ => none
  | fuel + 1, x =>
    if idInArr restrictedIDs x then getNextIDLoop restrictedIDs fuel (incrementID x)
    else some x

/-- getNextID from packet/client.go as a function of the current counter
value: one increment step followed by the restricted-ID skip loop. The
fuel 4294967296 exceeds the size of the counter's cycle, so it is never
exhausted when the loop terminates in Go. -/
def getNextID (restrictedIDs : List Int) (x : Int) : Option Int :=
  getNextIDLoop restrictedIDs 4294967296 (incrementID x)

/-- The reachable states of the package-global counter nextClientPacketID:
its initial value 0 and every value a successful allocation can leave it
at. -/
inductive ReachableCounter : Int → Prop
  | init : ReachableCounter 0
  | step (restrictedIDs : List Int) (x y : Int) : ReachableCounter x →
      getNextID restrictedIDs x = some y → ReachableCounter y

theorem getNextIDLoop_of_not_restricted (restrictedIDs : List Int) (fuel : Nat)
    (x : Int) (hfuel : 0 < fuel) (hx : idInArr restrictedIDs x = false) :
    getNextIDLoop restrictedIDs fuel x = some x := by
  cases fuel with
  | zero => omega
  | succ n => simp [getNextIDLoop, hx]

theorem getNextIDLoop_of_restricted (restrictedIDs : List Int) (fuel : Nat)
    (x : Int) (hx : idInArr restrictedIDs x = true) :
    getNextIDLoop restrictedIDs (fuel + 1) x =
      getNextIDLoop restrictedIDs fuel (incrementID x) := by
  simp [getNextIDLoop, hx]

theorem incrementID_mem (x : Int) (h0 : 0 ≤ x) (h1 : x ≤ 2147483646) :
    1 ≤ incrementID x ∧ incrementID x ≤ 2147483646 := by
  have ht : trunc32 (x + 1) = x + 1 := trunc32_eq_self (x + 1) (by omega) (by omega)
  unfold incrementID
  rw [ht]
  split <;> omega

/-- Cyclic distance from x to v along the increment order on the legal ID
range, used as the termination measure of the skip loop. -/
def idDist (x v : Int) : Nat :=
  (if x ≤ v then v - x else v + 2147483646 - x).toNat

theorem idDist_lt (x v : Int) (hx1 : 1 ≤ x) (hx2 : x ≤ 2147483646)
    (hv1 : 1 ≤ v) (hv2 : v ≤ 2147483646) : idDist x v < 2147483646 := by
  unfold idDist
  split <;> omega

theorem idDist_incrementID (x v : Int) (hx1 : 1 ≤ x) (hx2 : x ≤ 2147483646)
    (hv1 : 1 ≤ v) (hv2 : v ≤ 2147483646) (hne : x ≠ v) :
    idDist (incrementID x) v + 1 = idDist x v := by
  have ht : trunc32 (x + 1) = x + 1 := trunc32_eq_self (x + 1) (by omega) (by omega)
  unfold incrementID idDist
  rw [ht]
  split_ifs <;> omega

theorem getNextIDLoop_finds (restrictedIDs : List Int) (v : Int)
    (hvR : idInArr restrictedIDs v = false) (hv1 : 1 ≤ v) (hv2 : v ≤ 2147483646) :
    ∀ (d : Nat) (fuel : Nat) (x : Int), 1 ≤ x → x ≤ 2147483646 → idDist x v = d →
      d < fuel → ∃ y, getNextIDLoop restrictedIDs fuel x = some y ∧
        1 ≤ y ∧ y ≤ 2147483646 ∧ idInArr restrictedIDs y = false := by
  intro d
  induction d with
  | zero =>
    intro fuel x hx1 hx2 hdist hfuel
    have hxv : x = v := by
      unfold idDist at hdist
      split at hdist <;> omega
    subst hxv
    exact ⟨x, getNextIDLoop_of_not_restricted restrictedIDs fuel x hfuel hvR, hx1, hx2, hvR⟩
  | succ d ih =>
    intro fuel x hx1 hx2 hdist hfuel
    by_cases hres : idInArr restrictedIDs x = true
    · obtain ⟨f, rfl⟩ : ∃ f, fuel = f + 1 := ⟨fuel - 1, by omega⟩
      rw [getNextIDLoop_of_restricted restrictedIDs f x hres]
      have hne : x ≠ v := by
        intro hxv
        rw [hxv] at hres
        rw [hvR] at hres
        exact Bool.false_ne_true hres
      have hmem := incrementID_mem x (by omega) hx2
      have hstep := idDist_incrementID x v hx1 hx2 hv1 hv2 hne
      exact ih f (incrementID x) hmem.1 hmem.2 (by omega) (by omega)
    · have hres' : idInArr restrictedIDs x = false := by
        cases h : idInArr restrictedIDs x
        · rfl
        · exact absurd h hres
      exact ⟨x, getNextIDLoop_of_not_restricted restrictedIDs fuel x (by omega) hres',
        hx1, hx2, hres'⟩

theorem getNextIDLoop_mem_of_some (restrictedIDs : List Int) :
    ∀ (fuel : Nat) (x y : Int), 1 ≤ x → x ≤ 2147483646 →
      getNextIDLoop restrictedIDs fuel x = some y → 1 ≤ y ∧ y ≤ 2147483646 := by
  intro fuel
  induction fuel with
  | zero => intro x y _ _ h; simp [getNextIDLoop] at h
  | succ f ih =>
    intro x y hx1 hx2 h
    by_cases hres : idInArr restrictedIDs x = true
    · rw [getNextIDLoop_of_restricted restrictedIDs f x hres] at h
      have hmem := incrementID_mem x (by omega) hx2
      exact ih (incrementID x) y hmem.1 hmem.2 h
    · rw [getNextIDLoop_of_not_restricted restrictedIDs (f + 1) x (by omega)
        (by cases hb : idInArr restrictedIDs x; rfl; exact absurd hb hres)] at h
      cases h
      exact ⟨hx1, hx2⟩

/-- Every successful allocation from a counter value in the legal closure
{0} union [1, 2147483646] yields a value in [1, 2147483646]. -/
theorem getNextID_mem_of_some (restrictedIDs : List Int) (x y : Int)
    (hx : 0 ≤ x ∧ x ≤ 2147483646) (h : getNextID restrictedIDs x = some y) :
    1 ≤ y ∧ y ≤ 2147483646 := by
  have hmem := incrementID_mem x hx.1 hx.2
  exact getNextIDLoop_mem_of_some restrictedIDs 4294967296 (incrementID x) y
    hmem.1 hmem.2 h

theorem reachableCounter_range (x : Int) (h : ReachableCounter x) :
    0 ≤ x ∧ x ≤ 2147483646 := by
  induction h with
  | init => omega
  | step restrictedIDs x' y _ hsome ih =>
    have := getNextID_mem_of_some restrictedIDs x' y ih hsome
    omega

/-- The error kinds of the errs package surfaced by the session controller. -/
inductive Err
| notConnected
| authentication
| queueTimeout
| readTimeout
deriving DecidableEq

/-- Model of errors.Wrap from github.com/pkg/errors as used by the client:
wrapping preserves the cause of a non-nil error, and wrapping a nil error
yields nil (the message argument is dropped; it does not affect control
flow). -/
def errorsWrap (err : Option Err) : Option Err :=
  match err with
  | none => none
  | some e => some e

/-- The verdict of authenticate (client part, lines 395-418) on a response
packet obtained from a successful deadlined read, so the read error err is
nil at the two checks. A non-AUTH_RES type wraps that nil err; an id equal
to AuthFailedID wraps ErrAuthentication; otherwise authentication
succeeds. -/
def authenticateVerdict (res : ClientPacket) : Option Err :=
  if res.pType ≠ TypeAuthRes then errorsWrap none
  else if res.id = AuthFailedID then errorsWrap (some .authentication)
  else none

/-- Sequential abstraction of the Client of the single-socket
implementation: whether the socket handle conn is non-nil, whether the
termination channel has been closed, whether the writer fiber is parked on
the send queue, the keys of the readQueue mailbox map, whether a
DisconnectHandler was configured, and two instrumentation counters
recording how often the disconnect sink was invoked and how often the
termination channel was closed. -/
structure ClientState where
  connected : Bool
  terminated : Bool
  writerRunning : Bool
  mailboxes : List Int
  hasDisconnectHandler : Bool
  sinkCalls : Nat
  terminateCloses : Nat
deriving DecidableEq

/-- A client as NewClient returns it, before Connect has been performed:
no socket, termination channel open, no writer fiber, empty mailbox map. -/
def freshClient (hasHandler : Bool) : ClientState :=
  { connected := false
    terminated := false
    writerRunning := false
    mailboxes := []
    hasDisconnectHandler := hasHandler
    sinkCalls := 0
    terminateCloses := 0 }

/-- disconnect from the client: closes the termination channel (counted),
closes and nulls the socket, and invokes the DisconnectHandler if one is
set (counted). The writer and reader fibers observe the closed termination
channel and exit, so in this sequential abstraction the writer is no longer
parked on the send queue afterwards. -/
def Client.disconnect (st : ClientState) : ClientState :=
  { st with
    terminated := true
    terminateCloses := st.terminateCloses + 1
    connected := false
    writerRunning := false
    sinkCalls := st.sinkCalls + (if st.hasDisconnectHandler then 1 else 0) }

/-- Close from the client: returns ErrNotConnected if the socket handle is
already nil, otherwise runs disconnect with a nil error and succeeds. -/
def Client.Close (st : ClientState) : Except Err Unit × ClientState :=
  if st.connected = false then (.error .notConnected, st)
  else (.ok (), Client.disconnect st)

/-- enqueuePacket from the client: the send on the unbuffered writeQueue
channel succeeds exactly when the writer fiber is parked on the queue;
otherwise the select falls into the QueueWriteTimeout branch and returns
ErrQueueTimeout. On success, a mailbox for the packet id is then inserted
into readQueue when createMailbox is set. -/
def Client.enqueuePacket (st : ClientState) (pid : Int) (createMailbox : Bool) :
    Except Err Unit × ClientState :=
  if st.writerRunning then
    (.ok (), { st with mailboxes :=
      if createMailbox then pid :: st.mailboxes else st.mailboxes })
  else (.error .queueTimeout, st)

/-- getResponse from the client: waits on the mailbox for the packet id;
the response argument is the packet the mailbox yields within the
QueueReadTimeout, none standing for a timeout. The mailbox is always
removed on exit. -/
def Client.getResponse (st : ClientState) (pid : Int)
    (response : Option ClientPacket) : Except Err ClientPacket × ClientState :=
  let st' := { st with mailboxes := st.mailboxes.erase pid }
  match response with
  | none => (.error .readTimeout, st')
  | some p => (.ok p, st')

/-- ExecCommand from the client: enqueues a fresh command packet with a
mailbox, and on success waits for the response; errors from either phase
are wrapped with their cause preserved, so the caller sees the underlying
error kind. The response body handling (null stripping) is omitted here;
only the error behaviour is modelled. -/
def Client.ExecCommand (st : ClientState) (pid : Int)
    (response : Option ClientPacket) : Except Err ClientPacket × ClientState :=
  match Client.enqueuePacket st pid true with
  | (.error e, st') => (.error e, st')
  | (.ok _, st') => Client.getResponse st' pid response

/-- The externally triggered shutdown events of one session: a user call to
Close, and the reader fiber observing EOF or a closed pipe from
readPacket. -/
inductive SessionEvent
| userClose
| readerEOF
| readerClosedPipe
deriving DecidableEq

/-- How the client reacts to one shutdown event. The reader calls
disconnect on an EOF or closed-pipe read error; once the socket handle is
nil, readPacket instead returns ErrNotConnected, on which the reader
continues without disconnecting, so the EOF and closed-pipe paths are only
reachable while the socket is non-nil. -/
def Client.handleEvent (st : ClientState) (e : SessionEvent) : ClientState :=
  match e with
  | .userClose => (Client.Close st).2
  | .readerEOF => if st.connected then Client.disconnect st else st
  | .readerClosedPipe => if st.connected then Client.disconnect st else st

/-- Sequential execution of a series of shutdown events against the
client. -/
def Client.run (st : ClientState) : List SessionEvent → ClientState
  | [] => st
  | e :: rest => Client.run (Client.handleEvent st e) rest

/-- Program-order trace of one enqueuePacket call, recording the send-queue
hand-off, the mailbox insertion and the timeout branch as they occur in the
source: the mailbox insertion happens inside the successful-send arm of the
select, after the hand-off. -/
inductive SendEvent
| handedToQueue (pid : Int)
| mailboxCreated (pid : Int)
| queueTimedOut (pid : Int)
deriving DecidableEq

/-- The events of enqueuePacket in program order: when the writer accepts
the packet, the hand-off comes first and the mailbox insertion (if
requested) second; otherwise only the timeout fires. -/
def enqueuePacketEvents (writerReady : Bool) (pid : Int) (createMailbox : Bool) :
    List SendEvent :=
  if writerReady then
    .handedToQueue pid :: (if createMailbox then [.mailboxCreated pid] else [])
  else [.queueTimedOut pid]

theorem take4_of_append (l1 l2 : List Nat) (h : l1.length = 4) :
    (l1 ++ l2).take 4 = l1 := by
  rw [← h]
  exact List.take_left l1 l2

theorem drop4_of_append (l1 l2 : List Nat) (h : l1.length = 4) :
    (l1 ++ l2).drop 4 = l2 := by
  rw [← h]
  exact List.drop_left l1 l2

/-- Decoding a well-formed frame whose announced size matches its body:
the headers are recovered exactly and the body is trimmed of nulls and then
newlines at both ends. -/
theorem decode_header_stream (m : Mode) (id ty : Int) (rawBody : List Nat)
    (hid1 : -2147483648 ≤ id) (hid2 : id < 2147483648)
    (hty1 : -2147483648 ≤ ty) (hty2 : ty < 2147483648)
    (hlen : (rawBody.length : Int) + 8 < 2147483648) :
    DecodeClientPacket m (encodeInt32 m ((rawBody.length : Int) + 8) ++
      (encodeInt32 m id ++ (encodeInt32 m ty ++ rawBody))) =
      .ok { mode := m, pType := ty, body := goTrim 10 (goTrim 0 rawBody), id := id } := by
  have e1l := encodeInt32_length m ((rawBody.length : Int) + 8)
  have e2l := encodeInt32_length m id
  have e3l := encodeInt32_length m ty
  simp only [DecodeClientPacket]
  rw [take4_of_append _ _ e1l, drop4_of_append _ _ e1l]
  rw [take4_of_append _ _ e2l, drop4_of_append _ _ e2l]
  rw [take4_of_append _ _ e3l, drop4_of_append _ _ e3l]
  rw [decodeInt32_encodeInt32 m _ (by omega) (by omega)]
  rw [decodeInt32_encodeInt32 m id hid1 hid2]
  rw [decodeInt32_encodeInt32 m ty hty1 hty2]
  have htr : trunc32 ((rawBody.length : Int) + 8 - 4 - 4) = (rawBody.length : Int) := by
    rw [trunc32_eq_self] <;> omega
  rw [htr]
  simp only [List.length_append, e1l, e2l, e3l]
  have h1 : ¬ (4 + (4 + (4 + rawBody.length)) < 4) := by omega
  have h4 : ¬ ((rawBody.length : Int) < 0) := by omega
  have h5 : ((rawBody.length : Int)).toNat = rawBody.length := by omega
  have h2 : ¬ (4 + (4 + rawBody.length) < 4) := by omega
  have h3 : ¬ (4 + rawBody.length < 4) := by omega
  rw [if_neg h1, if_neg h2, if_neg h3, if_neg h4, h5]
  rw [if_neg (by omega : ¬ (rawBody.length < rawBody.length))]
  rw [List.take_length]

theorem dropWhile_beq_eq_self (c : Nat) (m : List Nat) (h : ∀ b ∈ m, b ≠ c) :
    m.dropWhile (fun b => b == c) = m := by
  cases m with
  | nil => rfl
  | cons a t =>
    rw [List.dropWhile_cons]
    have ha : (a == c) = false := by
      simp only [beq_eq_false_iff_ne, ne_eq]
      exact h a (List.mem_cons_self a t)
    simp [ha]

/-- Trimming a byte from both ends only removes material at the two ends:
the original list decomposes around the trimmed result. -/
theorem goTrim_decomp (c : Nat) (l : List Nat) :
    ∃ pre suf, l = pre ++ goTrim c l ++ suf := by
  refine ⟨l.takeWhile (fun b => b == c),
    ((l.dropWhile (fun b => b == c)).reverse.takeWhile (fun b => b == c)).reverse, ?_⟩
  unfold goTrim dropTrailing dropLeading
  conv_lhs => rw [← List.takeWhile_append_dropWhile (fun b => b == c) l]
  rw [List.append_assoc]
  congr 1
  conv_lhs => rw [← (l.dropWhile (fun b => b == c)).reverse_reverse,
    ← List.takeWhile_append_dropWhile (fun b => b == c)
      (l.dropWhile (fun b => b == c)).reverse]
  rw [List.reverse_append]

/-- If a list contains no occurrence of the byte c, appending two trailing
c bytes and then trimming c from both ends gives the list back. -/
theorem goTrim_append_pair (c : Nat) (body : List Nat) (h : ∀ b ∈ body, b ≠ c) :
    goTrim c (body ++ [c, c]) = body := by
  cases body with
  | nil =>
    simp [goTrim, dropLeading, dropTrailing]
  | cons a t =>
    have ha : (a == c) = false := by
      simp only [beq_eq_false_iff_ne, ne_eq]
      exact h a (List.mem_cons_self a t)
    unfold goTrim dropLeading dropTrailing
    rw [List.cons_append, List.dropWhile_cons, ha]
    simp only [Bool.false_eq_true, if_false]
    rw [show (a :: (t ++ [c, c])).reverse = c :: c :: (t.reverse ++ [a]) by simp]
    rw [List.dropWhile_cons, List.dropWhile_cons]
    simp only [beq_self_eq_true, if_true]
    have hall : ∀ b ∈ t.reverse ++ [a], b ≠ c := by
      intro b hb
      rcases List.mem_append.mp hb with hb | hb
      · exact h b (List.mem_cons_of_mem a (List.mem_reverse.mp hb))
      · rw [List.mem_singleton.mp hb]
        exact h a (List.mem_cons_self a t)
    rw [dropWhile_beq_eq_self c _ hall]
    simp

/-- C1: the claim says authenticate returns an Authentication-kind error for
every response whose type is not AUTH_RES or whose id is -1. The code
instead wraps the nil read error when the type check fails, and
errors.Wrap of nil is nil, so authenticate succeeds on a response of type
COMMAND_RES: only the id = -1 check (reached when the type IS AUTH_RES)
produces the Authentication error. This theorem evaluates the embedded
authenticate at the failing input. -/
theorem c1_auth_non_auth_res_returns_nil :
    authenticateVerdict { mode := .little, pType := TypeCommandRes, body := [], id := 5 } = none ∧
    TypeCommandRes ≠ TypeAuthRes ∧
    authenticateVerdict { mode := .little, pType := TypeAuthRes, body := [], id := -1 } = some .authentication := by
  decide

/-- A command packet with a 2038-byte body, whose full serialized length is
2052 bytes. -/
def oversizedPacket : ClientPacket :=
  { mode := .little, pType := TypeCommand, body := List.replicate 2038 65, id := 1 }

/-- C2 counterexample: a ClientPacket with a 2038-byte body (full
serialized length 2052, at least 2048) builds successfully and returns the
bytes; no FrameTooLarge error is produced by the encode path. -/
theorem c2_counterexample :
    ∃ bs, ClientPacket.Build oversizedPacket = .ok bs ∧ 2048 ≤ bs.length := by
  refine ⟨_, rfl, ?_⟩
  simp [oversizedPacket, ClientPacket.Body, encodeInt32_length, List.length_append,
    List.length_replicate]

/-- C2 amended: ClientPacket.Build performs no size check and always
produces bytes; only the legacy payload encoder buildPacketFromPayload
enforces the limit, failing exactly when the full serialized length
14 + len(body) reaches 2048 bytes, that is when the body has at least 2034
bytes (not 2038). -/
theorem c2_build_size_check :
    (∀ p : ClientPacket, ∃ bs, ClientPacket.Build p = .ok bs) ∧
    (∀ pl : payload, buildPacketFromPayload pl = .error .payloadTooLarge ↔
      2048 ≤ pl.Body.length + 14) := by
  constructor
  · intro p
    exact ⟨_, rfl⟩
  · intro pl
    simp only [buildPacketFromPayload, payloadMaxSize, List.length_append,
      encodeInt32_length, List.length_cons, List.length_nil]
    split_ifs with hc
    · simp only [true_iff]
      omega
    · constructor
      · intro h
        exact h.elim
      · intro h
        exact absurd h (by omega)

/-- C3 counterexample: exec_command on a fresh, never-connected client
returns a QueueTimeout error (the unbuffered send queue has no consumer,
so the enqueue select times out), not NotConnected as claimed. -/
theorem c3_counterexample :
    (Client.ExecCommand (freshClient true) 1 none).1 = .error .queueTimeout ∧
    (Client.ExecCommand (freshClient true) 1 none).1 ≠ .error .notConnected := by
  decide

/-- C3 amended: exec_command called while the writer fiber is not parked
on the send queue, which is the case both before connect and on a closed
session, returns a QueueTimeout error; no path of ExecCommand produces
NotConnected. -/
theorem c3_exec_command_queue_timeout :
    (∀ (st : ClientState) (pid : Int) (response : Option ClientPacket),
      st.writerRunning = false →
      (Client.ExecCommand st pid response).1 = .error .queueTimeout) ∧
    (∀ hasHandler, (freshClient hasHandler).writerRunning = false) ∧
    (∀ st : ClientState, (Client.disconnect st).writerRunning = false) := by
  refine ⟨?_, ?_, ?_⟩
  · intro st pid response h
    simp [Client.ExecCommand, Client.enqueuePacket, h]
  · intro hasHandler
    rfl
  · intro st
    rfl

/-- C3 witness: the amended theorem applied to a session closed by
disconnect. -/
theorem c3_witness :
    (Client.ExecCommand (Client.disconnect (freshClient true)) 2 none).1 = .error .queueTimeout :=
  c3_exec_command_queue_timeout.1 (Client.disconnect (freshClient true)) 2 none rfl

/-- C4 counterexample: in the program-order trace of an enqueuePacket call
that creates a mailbox, the mailbox-insertion event does not precede the
send-queue hand-off. -/
theorem c4_counterexample :
    ¬ ((enqueuePacketEvents true 1 true).indexOf (SendEvent.mailboxCreated 1) <
       (enqueuePacketEvents true 1 true).indexOf (SendEvent.handedToQueue 1)) := by
  decide

/-- C4 amended: in every exec_command enqueue that creates a mailbox, the
send-queue hand-off precedes the mailbox insertion in program order (the
insertion happens inside the successful-send arm of the select, after the
channel send completes). -/
theorem c4_handoff_precedes_mailbox (pid : Int) :
    (enqueuePacketEvents true pid true).indexOf (SendEvent.handedToQueue pid) <
      (enqueuePacketEvents true pid true).indexOf (SendEvent.mailboxCreated pid) := by
  have h1 : enqueuePacketEvents true pid true =
      [SendEvent.handedToQueue pid, SendEvent.mailboxCreated pid] := rfl
  rw [h1]
  have hne : SendEvent.handedToQueue pid ≠ SendEvent.mailboxCreated pid := by
    intro h
    exact SendEvent.noConfusion h
  rw [List.indexOf_cons_self]
  rw [List.indexOf_cons_ne _ hne]
  omega

/-- C5 counterexample: decoding a frame whose wire body is 0x00 0x41 0x00
0x00 yields the body [65]: the leading null byte is stripped as well,
whereas the documented trailing-only trimming would keep [0, 65]. -/
theorem c5_counterexample :
    DecodeClientPacket .little [12,0,0,0, 1,0,0,0, 0,0,0,0, 0,65,0,0] =
      .ok { mode := .little, pType := 0, body := [65], id := 1 } ∧
    specDocumentedTrim [0,65,0,0] = [0,65] ∧
    ([65] : List Nat) ≠ [0,65] := by
  decide

/-- C5 amended: for every input frame, decode strips null bytes from BOTH
ends of the body and then newline bytes from BOTH ends (Go bytes.Trim),
and the surviving interior bytes are returned unchanged: the trimmed body
is a contiguous segment of the wire body. -/
theorem c5_decode_trims_both_ends (m : Mode) (id ty : Int) (rawBody : List Nat)
    (hid1 : -2147483648 ≤ id) (hid2 : id < 2147483648)
    (hty1 : -2147483648 ≤ ty) (hty2 : ty < 2147483648)
    (hlen : (rawBody.length : Int) + 8 < 2147483648) :
    DecodeClientPacket m (encodeInt32 m ((rawBody.length : Int) + 8) ++
      (encodeInt32 m id ++ (encodeInt32 m ty ++ rawBody))) =
      .ok { mode := m, pType := ty, body := goTrim 10 (goTrim 0 rawBody), id := id } ∧
    ∃ pre suf, rawBody = pre ++ goTrim 10 (goTrim 0 rawBody) ++ suf := by
  constructor
  · exact decode_header_stream m id ty rawBody hid1 hid2 hty1 hty2 hlen
  · obtain ⟨p1, s1, h1⟩ := goTrim_decomp 0 rawBody
    obtain ⟨p2, s2, h2⟩ := goTrim_decomp 10 (goTrim 0 rawBody)
    refine ⟨p1 ++ p2, s2 ++ s1, ?_⟩
    conv_lhs => rw [h1, h2]
    simp [List.append_assoc]

/-- C5 witness: the amended theorem applied to a little-endian frame with
wire body 0x00 0x41 0x00. -/
theorem c5_witness :
    DecodeClientPacket .little (encodeInt32 .little ((([0,65,0] : List Nat).length : Int) + 8) ++
      (encodeInt32 .little 1 ++ (encodeInt32 .little 0 ++ [0,65,0]))) =
      .ok { mode := .little, pType := 0, body := goTrim 10 (goTrim 0 [0,65,0]), id := 1 } ∧
    ∃ pre suf, ([0,65,0] : List Nat) = pre ++ goTrim 10 (goTrim 0 [0,65,0]) ++ suf :=
  c5_decode_trims_both_ends .little 1 0 [0,65,0] (by norm_num) (by norm_num)
    (by norm_num) (by norm_num) (by norm_num)

/-- C6 counterexample: encoding and decoding the packet with body
[10, 65] (a leading newline, no nulls, well within the size bound) yields
body [65], not the original body: the claimed equality up to the
documented (trailing-only) trimming fails because bytes.Trim also strips
the leading newline. -/
theorem c6_counterexample :
    ClientPacket.Build { mode := .little, pType := 2, body := [10, 65], id := 1 } =
      .ok [12,0,0,0, 1,0,0,0, 2,0,0,0, 10,65,0, 0] ∧
    DecodeClientPacket .little [12,0,0,0, 1,0,0,0, 2,0,0,0, 10,65,0, 0] =
      .ok { mode := .little, pType := 2, body := [65], id := 1 } ∧
    specDocumentedTrim [10, 65] = [10, 65] ∧
    ({ mode := .little, pType := 2, body := [65], id := 1 } : ClientPacket) ≠
      { mode := .little, pType := 2, body := [10, 65], id := 1 } := by
  decide

theorem Size_eq_of_small (p : ClientPacket)
    (hlen : (p.body.length : Int) + 10 < 2147483648) :
    ClientPacket.Size p = (p.body.length : Int) + 10 := by
  have h1 : (p.Body.length : Int) = (p.body.length : Int) + 1 := by
    simp [ClientPacket.Body]
  unfold ClientPacket.Size int32Bytes endPadBytes
  rw [h1]
  rw [trunc32_eq_self ((p.body.length : Int) + 1) (by omega) (by omega)]
  rw [trunc32_eq_self _ (by omega) (by omega)]
  ring

/-- C6 amended: for every endianness mode, int32 type and id, and body
with len(body) + 10 < 2048 and no null bytes, decoding the bytes produced
by Build yields a packet with the same mode, type and id, and with the
body trimmed of newline bytes at BOTH ends (not only trailing). -/
theorem c6_roundtrip (m : Mode) (ty id : Int) (body : List Nat)
    (hid1 : -2147483648 ≤ id) (hid2 : id < 2147483648)
    (hty1 : -2147483648 ≤ ty) (hty2 : ty < 2147483648)
    (hlen : body.length + 10 < 2048)
    (hnull : ∀ b ∈ body, b ≠ 0) :
    ∃ bs, ClientPacket.Build { mode := m, pType := ty, body := body, id := id } = .ok bs ∧
      DecodeClientPacket m bs = .ok { mode := m, pType := ty, body := goTrim 10 body, id := id } := by
  have hsize : ClientPacket.Size { mode := m, pType := ty, body := body, id := id } =
      ((body ++ [0, 0]).length : Int) + 8 := by
    have hsmall : ((({ mode := m, pType := ty, body := body, id := id } :
        ClientPacket)).body.length : Int) + 10 < 2147483648 := by
      show (body.length : Int) + 10 < 2147483648
      omega
    rw [Size_eq_of_small _ hsmall]
    show (body.length : Int) + 10 = ((body ++ [0, 0]).length : Int) + 8
    simp [List.length_append]
    ring
  have hbytes : ClientPacket.Build { mode := m, pType := ty, body := body, id := id } =
      .ok (encodeInt32 m (((body ++ [0, 0]).length : Int) + 8) ++
        (encodeInt32 m id ++ (encodeInt32 m ty ++ (body ++ [0, 0])))) := by
    unfold ClientPacket.Build
    rw [hsize]
    simp [ClientPacket.Body, List.append_assoc]
  refine ⟨_, hbytes, ?_⟩
  rw [decode_header_stream m id ty (body ++ [0, 0]) hid1 hid2 hty1 hty2
    (by simp only [List.length_append, List.length_cons, List.length_nil]; push_cast; omega)]
  rw [goTrim_append_pair 0 body hnull]

/-- C6 witness: the amended round-trip applied to the packet with body
[72]. -/
theorem c6_witness :
    ∃ bs, ClientPacket.Build { mode := .little, pType := 2, body := [72], id := 1 } = .ok bs ∧
      DecodeClientPacket .little bs =
        .ok { mode := .little, pType := 2, body := goTrim 10 [72], id := 1 } :=
  c6_roundtrip .little 2 1 [72] (by norm_num) (by norm_num) (by norm_num) (by norm_num)
    (by norm_num) (by decide)

/-- C7: the allocator, started from any reachable counter state, returns a
value in [1, 2147483646] outside the restricted set whenever the restricted
set does not cover that whole range, and the two preloaded scenarios give 1
and 13 respectively. -/
theorem c7_getNextID_spec :
    (∀ (restrictedIDs : List Int) (x : Int), ReachableCounter x →
      (∃ v, 1 ≤ v ∧ v ≤ 2147483646 ∧ idInArr restrictedIDs v = false) →
      ∃ y, getNextID restrictedIDs x = some y ∧ 1 ≤ y ∧ y ≤ 2147483646 ∧
        idInArr restrictedIDs y = false) ∧
    getNextID [] 2147483646 = some 1 ∧
    getNextID [10, 11, 12] 10 = some 13 := by
  refine ⟨?_, ?_, ?_⟩
  · intro restrictedIDs x hreach hex
    obtain ⟨v, hv1, hv2, hvR⟩ := hex
    have hx := reachableCounter_range x hreach
    have hmem := incrementID_mem x hx.1 hx.2
    unfold getNextID
    exact getNextIDLoop_finds restrictedIDs v hvR hv1 hv2
      (idDist (incrementID x) v) 4294967296 (incrementID x) hmem.1 hmem.2 rfl
      (by have := idDist_lt (incrementID x) v hmem.1 hmem.2 hv1 hv2; omega)
  · unfold getNextID
    have e1 : incrementID 2147483646 = 1 := by decide
    rw [e1]
    exact getNextIDLoop_of_not_restricted _ _ _ (by norm_num) (by decide)
  · unfold getNextID
    have e1 : incrementID 10 = 11 := by decide
    rw [e1, show (4294967296 : Nat) = 4294967295 + 1 from rfl]
    rw [getNextIDLoop_of_restricted _ _ _ (by decide)]
    have e2 : incrementID 11 = 12 := by decide
    rw [e2, show (4294967295 : Nat) = 4294967294 + 1 from rfl]
    rw [getNextIDLoop_of_restricted _ _ _ (by decide)]
    have e3 : incrementID 12 = 13 := by decide
    rw [e3]
    exact getNextIDLoop_of_not_restricted _ _ _ (by norm_num) (by decide)

/-- C7 witness: the allocator theorem applied to the initial counter state
with restricted set {5}. -/
theorem c7_witness :
    ∃ y, getNextID [5] 0 = some y ∧ 1 ≤ y ∧ y ≤ 2147483646 ∧ idInArr [5] y = false :=
  c7_getNextID_spec.1 [5] 0 ReachableCounter.init ⟨1, by norm_num, by norm_num, by decide⟩

theorem client_run_bounds (st : ClientState) (events : List SessionEvent)
    (h : (st.connected = true ∧ st.sinkCalls = 0 ∧ st.terminateCloses = 0) ∨
         (st.connected = false ∧ st.sinkCalls ≤ 1 ∧ st.terminateCloses ≤ 1)) :
    (Client.run st events).sinkCalls ≤ 1 ∧ (Client.run st events).terminateCloses ≤ 1 := by
  induction events generalizing st with
  | nil =>
    simp only [Client.run]
    rcases h with ⟨_, hs, ht⟩ | ⟨_, hs, ht⟩ <;> omega
  | cons e rest ih =>
    simp only [Client.run]
    apply ih
    rcases h with ⟨hc, hs, ht⟩ | ⟨hc, hs, ht⟩
    · have hgoal : Client.handleEvent st e = Client.disconnect st := by
        cases e
        · show (Client.Close st).2 = Client.disconnect st
          simp [Client.Close, hc]
        · show (if st.connected = true then Client.disconnect st else st) = Client.disconnect st
          simp [hc]
        · show (if st.connected = true then Client.disconnect st else st) = Client.disconnect st
          simp [hc]
      rw [hgoal]
      right
      refine ⟨rfl, ?_, ?_⟩
      · show st.sinkCalls + (if st.hasDisconnectHandler then 1 else 0) ≤ 1
        split_ifs <;> omega
      · show st.terminateCloses + 1 ≤ 1
        omega
    · have hgoal : Client.handleEvent st e = st := by
        cases e
        · show (Client.Close st).2 = st
          simp [Client.Close, hc]
        · show (if st.connected = true then Client.disconnect st else st) = st
          simp [hc]
        · show (if st.connected = true then Client.disconnect st else st) = st
          simp [hc]
      rw [hgoal]
      exact Or.inr ⟨hc, hs, ht⟩

/-- C8: over any sequence of shutdown events the disconnect sink is invoked
at most once and the termination channel is closed at most once; Close on a
session whose socket handle is already nil returns ErrNotConnected and
leaves the state untouched; a successful Close nulls the socket handle. -/
theorem c8_shutdown_single_fire :
    (∀ (st : ClientState) (events : List SessionEvent),
      st.connected = true → st.sinkCalls = 0 → st.terminateCloses = 0 →
      (Client.run st events).sinkCalls ≤ 1 ∧ (Client.run st events).terminateCloses ≤ 1) ∧
    (∀ st : ClientState, st.connected = false →
      Client.Close st = (.error .notConnected, st)) ∧
    (∀ st : ClientState, st.connected = true → ((Client.Close st).2).connected = false) := by
  refine ⟨?_, ?_, ?_⟩
  · intro st events hc hs ht
    exact client_run_bounds st events (Or.inl ⟨hc, hs, ht⟩)
  · intro st hc
    simp [Client.Close, hc]
  · intro st hc
    simp [Client.Close, Client.disconnect, hc]

/-- A connected session with a disconnect handler installed and no shutdown
activity yet. -/
def demoSession : ClientState :=
  { connected := true
    terminated := false
    writerRunning := true
    mailboxes := []
    hasDisconnectHandler := true
    sinkCalls := 0
    terminateCloses := 0 }

/-- C8 witness: the shutdown theorem applied to a connected session and
the event sequence close, close, reader EOF. -/
theorem c8_witness :
    (Client.run demoSession [.userClose, .userClose, .readerEOF]).sinkCalls ≤ 1 ∧
    (Client.run demoSession [.userClose, .userClose, .readerEOF]).terminateCloses ≤ 1 :=
  c8_shutdown_single_fire.1 demoSession [.userClose, .userClose, .readerEOF] rfl rfl rfl

theorem Size_range (p : ClientPacket) : -2147483648 ≤ p.Size ∧ p.Size < 2147483648 := by
  unfold ClientPacket.Size
  exact trunc32_range _

/-- A command packet whose body has 2147483638 bytes, so that the int32
length cast in Size overflows. -/
def hugePacket : ClientPacket :=
  { mode := .little, pType := 2, body := List.replicate 2147483638 0, id := 1 }

/-- C9 counterexample: for a packet whose body has 2147483638 bytes the
int32 cast in Size overflows, the encode still succeeds, and the value
written in the leading size field is -2147483648 rather than the encoded
length minus 4 (which is 2147483648). -/
theorem c9_counterexample :
    ∃ bs, ClientPacket.Build hugePacket = .ok bs ∧
      decodeInt32 .little (bs.take 4) ≠ (bs.length : Int) - 4 := by
  refine ⟨_, rfl, ?_⟩
  have hbody : (hugePacket.Body).length = 2147483639 := by
    show (List.replicate 2147483638 0 ++ [0]).length = 2147483639
    rw [List.length_append, List.length_replicate, List.length_singleton]
  have hsize : ClientPacket.Size hugePacket = -2147483648 := by
    unfold ClientPacket.Size int32Bytes endPadBytes
    rw [hbody]
    decide
  have hassoc : encodeInt32 hugePacket.mode hugePacket.Size ++
      encodeInt32 hugePacket.mode hugePacket.id ++
      encodeInt32 hugePacket.mode hugePacket.pType ++ hugePacket.Body ++ [0] =
      encodeInt32 hugePacket.mode hugePacket.Size ++
      (encodeInt32 hugePacket.mode hugePacket.id ++
      (encodeInt32 hugePacket.mode hugePacket.pType ++ (hugePacket.Body ++ [0]))) := by
    simp [List.append_assoc]
  rw [hassoc, take4_of_append _ _ (encodeInt32_length _ _)]
  have hmode : hugePacket.mode = .little := rfl
  rw [hmode, decodeInt32_encodeInt32 .little _ (Size_range hugePacket).1
    (Size_range hugePacket).2, hsize]
  rw [List.length_append, List.length_append, List.length_append, List.length_append]
  rw [encodeInt32_length, encodeInt32_length, encodeInt32_length, hbody, List.length_singleton]
  decide

/-- C9 amended: for every built ClientPacket whose body plus ten bytes fits
an int32 (all packets inside the protocol's 2048-byte regime included) the
leading size field decodes to the encoded length minus four; the legacy
payload encoder satisfies this unconditionally whenever it succeeds. -/
theorem c9_size_field :
    (∀ (p : ClientPacket) (bs : List Nat), ClientPacket.Build p = .ok bs →
      (p.body.length : Int) + 10 < 2147483648 →
      decodeInt32 p.mode (bs.take 4) = (bs.length : Int) - 4) ∧
    (∀ (pl : payload) (bs : List Nat), buildPacketFromPayload pl = .ok bs →
      decodeInt32 .little (bs.take 4) = (bs.length : Int) - 4) := by
  constructor
  · intro p bs hb hlen
    rw [ClientPacket.Build] at hb
    obtain rfl := Except.ok.inj hb
    have hassoc : encodeInt32 p.mode p.Size ++ encodeInt32 p.mode p.id ++
        encodeInt32 p.mode p.pType ++ p.Body ++ [0] =
        encodeInt32 p.mode p.Size ++ (encodeInt32 p.mode p.id ++
          (encodeInt32 p.mode p.pType ++ (p.Body ++ [0]))) := by
      simp [List.append_assoc]
    rw [hassoc, take4_of_append _ _ (encodeInt32_length _ _)]
    rw [decodeInt32_encodeInt32 _ _ (Size_range p).1 (Size_range p).2]
    rw [Size_eq_of_small p hlen]
    simp only [List.length_append, encodeInt32_length, ClientPacket.Body,
      List.length_cons, List.length_nil]
    push_cast
    ring
  · intro pl bs hb
    simp only [buildPacketFromPayload] at hb
    split at hb
    · exact absurd hb (by simp)
    · have hcond : ¬ (payloadMaxSize ≤ (encodeInt32 .little pl.getSize ++
        encodeInt32 .little pl.ID ++ encodeInt32 .little pl.PType ++
        pl.Body ++ [0, 0]).length) := by assumption
      simp only [payloadMaxSize, List.length_append, encodeInt32_length,
        List.length_cons, List.length_nil] at hcond
      have hgs : payload.getSize pl = (pl.Body.length : Int) + 10 := by
        unfold payload.getSize
        rw [trunc32_eq_self] <;> omega
      obtain rfl := Except.ok.inj hb
      have hassoc : encodeInt32 .little pl.getSize ++ encodeInt32 .little pl.ID ++
          encodeInt32 .little pl.PType ++ pl.Body ++ [0, 0] =
          encodeInt32 .little pl.getSize ++ (encodeInt32 .little pl.ID ++
            (encodeInt32 .little pl.PType ++ (pl.Body ++ [0, 0]))) := by
        simp [List.append_assoc]
      rw [hassoc, take4_of_append _ _ (encodeInt32_length _ _)]
      rw [hgs, decodeInt32_encodeInt32 .little _ (by omega) (by omega)]
      simp only [List.length_append, encodeInt32_length, List.length_cons,
        List.length_nil]
      push_cast
      ring

/-- C9 witness: the size-field theorem applied to the built bytes of the
packet with body [72, 105]. -/
theorem c9_witness :
    decodeInt32 Mode.little (([12,0,0,0, 1,0,0,0, 2,0,0,0, 72,105,0, 0] : List Nat).take 4) =
      (([12,0,0,0, 1,0,0,0, 2,0,0,0, 72,105,0, 0] : List Nat).length : Int) - 4 :=
  c9_size_field.1 { mode := .little, pType := 2, body := [72, 105], id := 1 }
    [12,0,0,0, 1,0,0,0, 2,0,0,0, 72,105,0, 0] (by decide) (by decide)

theorem getD_lt_256 (l : List Nat) (h : ∀ b ∈ l, b < 256) (i : Nat) : l.getD i 0 < 256 := by
  by_cases hi : i < l.length
  · rw [List.getD_eq_getElem l 0 hi]
    exact h _ (List.getElem_mem hi)
  · rw [List.getD_eq_default l 0 (by omega)]
    norm_num

theorem decodeInt32_range (m : Mode) (l : List Nat) (h : ∀ b ∈ l, b < 256) :
    -2147483648 ≤ decodeInt32 m l ∧ decodeInt32 m l < 2147483648 := by
  have h0 := getD_lt_256 l h 0
  have h1 := getD_lt_256 l h 1
  have h2 := getD_lt_256 l h 2
  have h3 := getD_lt_256 l h 3
  cases m <;> simp only [decodeInt32] <;> split <;> omega

/-- C10 counterexample: a full 12-byte header announcing size -2147483648
(which is below 8) does not panic: the int32 subtraction size - 8 wraps to
a large positive body length and the decoder takes the error path. -/
theorem c10_counterexample :
    12 ≤ ([0,0,0,128] ++ List.replicate 8 0 : List Nat).length ∧
    decodeInt32 .little (([0,0,0,128] ++ List.replicate 8 0 : List Nat).take 4) < 8 ∧
    DecodeClientPacket .little ([0,0,0,128] ++ List.replicate 8 0) = .readErr ∧
    DecodeClientPacket .little ([0,0,0,128] ++ List.replicate 8 0) ≠ .panicked := by
  decide

/-- C10 amended: with a full 12-byte header of valid bytes, decode panics
exactly when the announced size lies in [-2147483640, 8), the sizes for
which the int32 computation size - 8 is negative; for sizes of at least 8,
for sizes below -2147483640 (where size - 8 wraps positive), and for
streams too short to reach the body allocation, decode returns
error-or-success without panicking. -/
theorem c10_decode_panic_iff :
    (∀ (m : Mode) (s : List Nat), 12 ≤ s.length → (∀ b ∈ s.take 4, b < 256) →
      (DecodeClientPacket m s = .panicked ↔
        (-2147483640 ≤ decodeInt32 m (s.take 4) ∧ decodeInt32 m (s.take 4) < 8))) ∧
    (∀ (m : Mode) (s : List Nat), s.length < 12 → DecodeClientPacket m s ≠ .panicked) := by
  constructor
  · intro m s hlen hbytes
    have hrange := decodeInt32_range m (s.take 4) hbytes
    simp only [DecodeClientPacket, List.length_drop]
    rw [if_neg (by omega : ¬ s.length < 4)]
    rw [if_neg (by omega : ¬ s.length - 4 < 4)]
    rw [if_neg (by omega : ¬ s.length - 4 - 4 < 4)]
    by_cases hneg : trunc32 (decodeInt32 m (s.take 4) - 4 - 4) < 0
    · rw [if_pos hneg]
      unfold trunc32 at hneg
      constructor
      · intro _
        omega
      · intro _
        rfl
    · rw [if_neg hneg]
      constructor
      · intro hres
        split at hres
        · exact absurd hres (by simp)
        · exact absurd hres (by simp)
      · intro hrhs
        exact absurd (by unfold trunc32; omega : trunc32 (decodeInt32 m (s.take 4) - 4 - 4) < 0) hneg
  · intro m s hlen hres
    simp only [DecodeClientPacket, List.length_drop] at hres
    split at hres
    · exact absurd hres (by simp)
    · split at hres
      · exact absurd hres (by simp)
      · split at hres
        · exact absurd hres (by simp)
        · split at hres
          · omega
          · split at hres
            · exact absurd hres (by simp)
            · exact absurd hres (by simp)

/-- C10 witness: the panic characterization applied to a full header
announcing size 4. -/
theorem c10_witness :
    DecodeClientPacket .little ([4,0,0,0] ++ List.replicate 8 0) = .panicked ↔
      (-2147483640 ≤ decodeInt32 .little (([4,0,0,0] ++ List.replicate 8 0 : List Nat).take 4) ∧
       decodeInt32 .little (([4,0,0,0] ++ List.replicate 8 0 : List Nat).take 4) < 8) :=
  c10_decode_panic_iff.1 .little ([4,0,0,0] ++ List.replicate 8 0) (by decide) (by decide)
